import Mathlib

/-!
Verification development for `send_webex_notifications.py`, a bulk Webex
notifier.  The Python source is shallowly embedded: pure helpers become Lean
functions, the per-recipient retry loop and the batch loop become explicit
recursions over scripted transport results, and the JSON card template is an
inductive tree.  File reading is modelled by passing the already-read data
(raw first line, parsed CSV rows, parsed JSON template) as arguments.
-/

namespace Webex

/-! ## Python string primitives, modelled over `List Char`

`str.strip`, `str.lower`, substring membership (`in`), `startswith` and
`str.replace` are re-implemented over character lists so that their simple
algebraic properties can be proved directly.  Only the ASCII whitespace set
used by the repository's data is modelled.
-/

/-- Whitespace characters recognised by Python's `str.strip()` (ASCII part). -/
def isSpaceChar (c : Char) : Bool :=
  c == ' ' || c == '\t' || c == '\n' || c == '\r' || c == '\x0b' || c == '\x0c'

/-- `str.strip()` on a character list: drop whitespace at both ends. -/
def pyStripL (l : List Char) : List Char :=
  ((l.dropWhile isSpaceChar).reverse.dropWhile isSpaceChar).reverse

/-- `str.strip()`. -/
def pyStrip (s : String) : String := ⟨pyStripL s.data⟩

/-- `str.lower()` (ASCII). -/
def pyLower (s : String) : String := ⟨s.data.map Char.toLower⟩

/-- `"@" in s` — membership of the at-sign. -/
def hasAt (s : String) : Bool := s.data.contains '@'

/-- `startswith`: `startsW p l` is true when `p` is an initial segment of `l`. -/
def startsW : List Char → List Char → Bool
  | [], _ => true
  | _ :: _, [] => false
  | p :: ps, c :: cs => p == c && startsW ps cs

/-- Python's substring test `pat in hay` over character lists. -/
def hasSub (hay pat : List Char) : Bool :=
  startsW pat hay ||
    match hay with
    | [] => false
    | _ :: t => hasSub t pat

/-- Substring test on strings: `pat in hay` in Python. -/
def strContains (hay pat : String) : Bool := hasSub hay.data pat.data

/-! ## Recipient loader (`load_emails`)

The file is presented as the raw first line (what `f.readline()` returns,
used only for header sniffing) together with the CSV-parsed rows.  Header
mode mirrors `csv.DictReader`: the first row is the field-name row, later
duplicate field names shadow earlier ones (as `dict(zip(...))` does), short
rows yield `None` for missing columns, and blank rows are skipped.
-/

/-- Index of the field name used by `DictReader`'s row dict: the LAST
occurrence wins, because `dict(zip(fieldnames, row))` lets later keys
overwrite earlier ones. -/
def dgetIdx (name : String) : List String → Option Nat
  | [] => none
  | h :: t =>
    match dgetIdx name t with
    | some i => some (i + 1)
    | none => if h == name then some 0 else none

/-- `row.get(name)` on a `DictReader` row: `none` models Python `None`
(missing column or short row). -/
def dget (fieldnames row : List String) (name : String) : Option String :=
  match dgetIdx name fieldnames with
  | none => none
  | some i => row.get? i

/-- Python `a or b` for optional strings: `None` and `""` are falsy. -/
def pyOrS : Option String → Option String → Option String
  | some s, b => if s = "" then b else some s
  | none, b => b

/-- One data row in header mode:
`(row.get("email") or row.get("Email") or row.get("EMAIL") or "").strip()`,
kept iff non-empty and containing `@`.  Blank rows are skipped by
`DictReader`. -/
def hdrCandidate (fieldnames row : List String) : Option String :=
  if row.isEmpty then none
  else
    let e := pyStrip ((pyOrS (dget fieldnames row "email")
      (pyOrS (dget fieldnames row "Email")
        (pyOrS (dget fieldnames row "EMAIL") none))).getD "")
    if e ≠ "" && hasAt e then some e else none

/-- One row in headerless mode: first field, stripped, kept iff non-empty,
containing `@`, and not starting (case-insensitively) with `email`. -/
def firstColCandidate (row : List String) : Option String :=
  match row with
  | [] => none
  | c :: _ =>
    let e := pyStrip c
    if e ≠ "" && hasAt e && !(startsW "email".data (pyLower e).data) then some e
    else none

/-- The `emails` list accumulated by `load_emails` before deduplication. -/
def rawEmails (firstLine : String) (rows : List (List String)) : List String :=
  if strContains (pyLower firstLine) "email" then
    match rows with
    | [] => []
    | fieldnames :: dataRows => dataRows.filterMap (hdrCandidate fieldnames)
  else
    rows.filterMap firstColCandidate

/-- Order-preserving deduplication with a seen-set, as in the source. -/
def dedupGo : List String → List String → List String
  | _, [] => []
  | seen, e :: rest =>
    if e ∈ seen then dedupGo seen rest else e :: dedupGo (e :: seen) rest

/-- De-duplicate while preserving first occurrences. -/
def dedup (l : List String) : List String := dedupGo [] l

/-- `load_emails`, with the file given as raw first line plus parsed rows. -/
def load_emails (firstLine : String) (rows : List (List String)) : List String :=
  dedup (rawEmails firstLine rows)

/-! ## JSON values

JSON documents (the card template and response bodies) are trees of typed
values.  Objects are association lists in insertion order; JSON numbers are
modelled as integers (the repository's templates use none of the float
corner cases). -/

/-- A JSON value. -/
inductive J where
  | null
  | bool (b : Bool)
  | num (n : Int)
  | str (s : String)
  | arr (xs : List J)
  | obj (kvs : List (String × J))

/-- `d.get(k)`: first binding of `k` (parsed JSON objects have unique keys). -/
def lookup (k : String) : List (String × J) → Option J
  | [] => none
  | (k', v) :: rest => if k' == k then some v else lookup k rest

/-- `{**d, k: v}` when `k` is already bound (in-place overwrite of the first
binding); appends at the end when `k` is absent, as Python dicts do. -/
def setKey (k : String) (v : J) : List (String × J) → List (String × J)
  | [] => [(k, v)]
  | (k', v') :: rest =>
    if k' == k then (k, v) :: rest else (k', v') :: setKey k v rest

/-- `node.get("type")` viewed as a string: `some s` exactly when the value is
the JSON string `s`, so `nodeTy kvs == some "X"` mirrors the Python
comparison `node.get("type") == "X"`. -/
def nodeTy (kvs : List (String × J)) : Option String :=
  match lookup "type" kvs with
  | some (.str s) => some s
  | _ => none

/-- `_is_blank` applied to `d.get(k)`: Python `None` (absent key or JSON
null) and whitespace-only strings are blank; any other value is not. -/
def isBlank : Option J → Bool
  | none => true
  | some .null => true
  | some (.str s) => pyStrip s == ""
  | some _ => false

/-- `(f or {}).get("value")`: a dict fact looks up `"value"`; falsy facts
(null, false, 0, "", empty containers) collapse to `{}` whose lookup is
`None`.  (A truthy non-dict fact raises `AttributeError` in Python and is
outside the modelled domain.) -/
def factValue : J → Option J
  | .obj kvs => lookup "value" kvs
  | _ => none

/-- `len(d.get(k, []))` as used on pruned children: lists, dicts and strings
have a Python length; an absent key defaults to `[]`.  (Numbers, booleans
and `None` raise `TypeError` in Python and are outside the modelled
domain.) -/
def pyLen : Option J → Nat
  | none => 0
  | some (.arr l) => l.length
  | some (.obj l) => l.length
  | some (.str s) => s.length
  | some _ => 0

/-! ## Placeholder substitution (`_deep_replace_placeholders`) -/

/-- Python `s.replace(pat, rep)`: left-to-right, non-overlapping.  The empty
pattern never occurs here (tokens are always `\x7b\x7bname\x7d\x7d`); for it
this model is the identity rather than Python's everywhere-insertion. -/
def replaceL (pat rep : List Char) : List Char → List Char
  | [] => []
  | c :: rest =>
    if h : pat ≠ [] ∧ startsW pat (c :: rest) = true then
      rep ++ replaceL pat rep ((c :: rest).drop pat.length)
    else
      c :: replaceL pat rep rest
termination_by l => l.length
decreasing_by
  · simp only [List.length_drop, List.length_cons]
    have : pat.length ≠ 0 := fun hz => h.1 (List.eq_nil_of_length_eq_zero hz)
    omega
  · simp

/-- The literal token `\x7b\x7bname\x7d\x7d` built for a variable name. -/
def tokenOf (name : String) : List Char :=
  '\x7b' :: '\x7b' :: (name.data ++ ['\x7d', '\x7d'])

/-- Replace every variable's token in one string, in variable-map order. -/
def substStr (vars : List (String × String)) (s : String) : String :=
  ⟨vars.foldl (fun acc kv => replaceL (tokenOf kv.1) kv.2.data acc) s.data⟩

mutual

/-- `_deep_replace_placeholders`: rewrite every string in the tree. -/
def substJ (vars : List (String × String)) : J → J
  | .str s => .str (substStr vars s)
  | .arr xs => .arr (substList vars xs)
  | .obj kvs => .obj (substKVs vars kvs)
  | j => j

/-- Substitution over a JSON array. -/
def substList (vars : List (String × String)) : List J → List J
  | [] => []
  | x :: xs => substJ vars x :: substList vars xs

/-- Substitution over an object's bindings (keys untouched). -/
def substKVs (vars : List (String × String)) :
    List (String × J) → List (String × J)
  | [] => []
  | (k, v) :: rest => (k, substJ vars v) :: substKVs vars rest

end

/-! ## Pruning (`_prune`)

Faithful to the source: the `TextBlock`, `FactSet` and `Action.OpenUrl`
special cases run before the recursion into children; the `FactSet` case
rewrites the node's `facts` binding in place; after recursing, empty
`Container`/`Column`/`ColumnSet`/`ActionSet` groupings are dropped while an
`AdaptiveCard` root (or any other type) is kept.  The unused `parent_type`
parameter of the source is omitted. -/

/-- `isinstance(v, (dict, list))`. -/
def isStructured : J → Bool
  | .obj _ => true
  | .arr _ => true
  | _ => false

mutual

/-- `_prune` on one JSON value; `none` models the Python `None` that makes
the parent discard the child. -/
def prune : J → Option J
  | .obj kvs =>
    if nodeTy kvs == some "TextBlock" && isBlank (lookup "text" kvs) then none
    else if nodeTy kvs == some "FactSet" then
      match hf : lookup "facts" kvs with
      | some (.arr facts) =>
        let pf := facts.filter (fun f => !isBlank (factValue f))
        if pf.isEmpty then none
        else some (.obj (pruneFields (setKey "facts" (.arr pf) kvs)))
      | _ => none
    else if nodeTy kvs == some "Action.OpenUrl" && isBlank (lookup "url" kvs)
      then none
    else
      let out := pruneFields kvs
      if (nodeTy kvs == some "Container" || nodeTy kvs == some "Column")
          && pyLen (lookup "items" out) == 0 then none
      else if nodeTy kvs == some "ColumnSet"
          && pyLen (lookup "columns" out) == 0 then none
      else if nodeTy kvs == some "ActionSet"
          && pyLen (lookup "actions" out) == 0 then none
      else some (.obj out)
  | .arr xs => some (.arr (pruneArr xs))
  | j => some j
termination_by j => sizeOf j
decreasing_by
  all_goals simp_wf
  all_goals first
    | omega
    | (have hfilter : ∀ xs : List J,
          sizeOf (List.filter (fun f => !isBlank (factValue f)) xs)
            ≤ sizeOf xs := by
         intro xs
         induction xs with
         | nil => simp
         | cons a l ihx =>
           rw [List.filter_cons]
           by_cases hp : (!isBlank (factValue a)) = true
           · rw [if_pos hp]
             simp
             omega
           · rw [if_neg hp]
             simp
             omega
       have hset : ∀ (l : List (String × J)),
           lookup "facts" l = some (J.arr facts) →
           sizeOf (setKey "facts"
             (J.arr (List.filter (fun f => !isBlank (factValue f)) facts)) l)
             ≤ sizeOf l := by
         intro l
         induction l with
         | nil => intro hl; simp [lookup] at hl
         | cons hd tl ihl =>
           intro hl
           obtain ⟨k', v'⟩ := hd
           simp only [lookup] at hl
           split at hl
           · rename_i hk
             have hkk : k' = "facts" := eq_of_beq hk
             subst hkk
             cases hl
             simp [setKey]
             have := hfilter facts
             omega
           · rename_i hk
             have := ihl hl
             simp only [setKey]
             rw [if_neg hk]
             simp
             omega
       have := hset _ hf
       omega)

/-- Child recursion over an object's bindings: structured values are pruned
(and dropped when pruning yields `None`), scalars pass through. -/
def pruneFields : List (String × J) → List (String × J)
  | [] => []
  | (k, v) :: rest =>
    if isStructured v then
      match prune v with
      | none => pruneFields rest
      | some p => (k, p) :: pruneFields rest
    else (k, v) :: pruneFields rest
termination_by kvs => sizeOf kvs
decreasing_by
  all_goals simp_wf
  all_goals omega

/-- `_prune` over a JSON array: prune each item, drop the `None`s. -/
def pruneArr : List J → List J
  | [] => []
  | x :: xs =>
    match prune x with
    | none => pruneArr xs
    | some p => p :: pruneArr xs
termination_by xs => sizeOf xs
decreasing_by
  all_goals simp_wf
  all_goals omega

end

/-- `load_card_json` after the template has been parsed: substitute
placeholders, prune, then require an `AdaptiveCard` object root.  Errors
model `SystemExit`. -/
def load_card_json (raw : J) (vars : List (String × String)) :
    Except String J :=
  match prune (substJ vars raw) with
  | some (.obj kvs) =>
    if nodeTy kvs == some "AdaptiveCard" then .ok (.obj kvs)
    else .error "Card template must be an AdaptiveCard object"
  | _ => .error "Card template must be an AdaptiveCard object"

/-- Declared type of a template's root node. -/
def rootType : J → Option String
  | .obj kvs => nodeTy kvs
  | _ => none

/-! ## Per-recipient retry loop (inner loop of `main`)

The transport is scripted: attempt `i` of a recipient observes a fixed
result, either an HTTP response (status, body text, parsed JSON body — the
latter `none` when `resp.json()` raises) or a `requests.RequestException`
with a message. -/

/-- One scripted transport result. -/
inductive AttemptResult where
  | resp (status : Nat) (text : String) (jsonBody : Option (List (String × J)))
  | exc (msg : String)

/-- Retryable failure: any status other than 200/201, or an exception. -/
def isFailure : AttemptResult → Bool
  | .resp s _ _ => !(s == 200 || s == 201)
  | .exc _ => true

/-- Success: a response with status 200 or 201. -/
def isSuccess : AttemptResult → Bool
  | .resp s _ _ => s == 200 || s == 201
  | .exc _ => false

/-- Message id the success branch extracts: `data.get("id", "")` with
`data = {}` when the body is absent or unparseable. -/
def respMsgId : AttemptResult → J
  | .resp _ _ (some kvs) => (lookup "id" kvs).getD (.str "")
  | .resp _ _ none => .str ""
  | .exc _ => .str ""

/-- Text whose first 300 characters feed the error preview: the response
body for a failed status, the exception string for a transport failure. -/
def errText : AttemptResult → String
  | .resp _ t _ => t
  | .exc m => m

/-- `(text or "")[:300].replace("\n", " ")`. -/
def truncPreview (s : String) : String :=
  ⟨(s.data.take 300).map (fun c => if c == '\n' then ' ' else c)⟩

/-- Mutable state of the attempt loop (`attempts`, `last_status`,
`message_id`, `error_preview`, `ok`). -/
structure LoopState where
  attempts : Nat
  lastStatus : Option Nat
  messageId : J
  errorPreview : String
  ok : Bool

/-- `for attempt in range(1, retry_count + 1)` with `break` on success:
the list argument carries the remaining attempt numbers. -/
def attemptLoop (dryRun : Bool) (scr : Nat → AttemptResult) :
    List Nat → LoopState → LoopState
  | [], st => st
  | i :: rest, st =>
    let st := { st with attempts := i }
    if dryRun then
      { st with ok := true, lastStatus := some 200, messageId := .str "(dry-run)" }
    else
      match scr i with
      | .resp status text jsonBody =>
        if status == 200 || status == 201 then
          { st with
            lastStatus := some status
            ok := true
            messageId := respMsgId (.resp status text jsonBody) }
        else
          attemptLoop dryRun scr rest
            { st with
              lastStatus := some status
              errorPreview := truncPreview text }
      | .exc msg =>
        attemptLoop dryRun scr rest
          { st with errorPreview := truncPreview msg }

/-- Initial per-recipient state. -/
def initState : LoopState := ⟨0, none, .str "", "", false⟩

/-- The whole attempt loop for one recipient. -/
def processRecipient (dryRun : Bool) (scr : Nat → AttemptResult)
    (retryCount : Nat) : LoopState :=
  attemptLoop dryRun scr (List.range' 1 retryCount) initState

/-- One CSV log row (the timestamp column is not modelled). -/
structure LogRow where
  email : String
  status : String
  attempts : Nat
  httpStatus : Option Nat
  messageId : J
  errorPreview : String

/-- The row `main` logs for one recipient: a `sent` row always carries an
empty error preview; a `failed` row carries the retained preview. -/
def outcomeOf (st : LoopState) (email : String) : LogRow :=
  if st.ok then ⟨email, "sent", st.attempts, st.lastStatus, st.messageId, ""⟩
  else ⟨email, "failed", st.attempts, st.lastStatus, st.messageId,
    st.errorPreview⟩

/-! ## Batch loop (outer loop of `main`) -/

/-- `chunked`: contiguous slices of `size` items.  (Python raises
`ValueError` for `size = 0`; that case is mapped to `[]` and excluded by a
positivity hypothesis in every theorem.) -/
def chunked : List String → Nat → List (List String)
  | [], _ => []
  | x :: xs, size =>
    if size = 0 then []
    else (x :: xs).take size :: chunked ((x :: xs).drop size) size
termination_by items _ => items.length
decreasing_by
  simp only [List.length_drop, List.length_cons]
  omega

/-- All rows of one batch, in order. -/
def processBatch (dryRun : Bool) (scr : String → Nat → AttemptResult)
    (retryCount : Nat) (batch : List String) : List LogRow :=
  batch.map (fun e => outcomeOf (processRecipient dryRun (scr e) retryCount) e)

/-- Batch loop: returns the log rows and the indices of batches after which
the inter-batch sleep fired (`batch_index * batch_size < len(emails)`). -/
def runBatches (dryRun : Bool) (scr : String → Nat → AttemptResult)
    (retryCount batchSize total : Nat) :
    Nat → List (List String) → List LogRow × List Nat
  | _, [] => ([], [])
  | idx, batch :: rest =>
    let bi := idx + 1
    let tail := runBatches dryRun scr retryCount batchSize total bi rest
    (processBatch dryRun scr retryCount batch ++ tail.1,
      (if bi * batchSize < total then [bi] else []) ++ tail.2)

/-- Result of one run: rows, counters and pause points. -/
structure RunResult where
  rows : List LogRow
  totalSent : Nat
  totalFailed : Nat
  pausesAfter : List Nat

/-- The delivery loop of `main` over already-loaded recipients.  The
counters tally the `sent`/`failed` rows, matching the per-recipient
increments of the source. -/
def runMain (dryRun : Bool) (scr : String → Nat → AttemptResult)
    (retryCount batchSize : Nat) (emails : List String) : RunResult :=
  let out := runBatches dryRun scr retryCount batchSize emails.length 0
    (chunked emails batchSize)
  ⟨out.1, out.1.countP (fun r => r.status == "sent"),
    out.1.countP (fun r => r.status == "failed"), out.2⟩

/-! ## Outcome log file (`ensure_log_writer`)

A log file is `none` when the path does not exist, otherwise the list of
its lines.  Opening for append never truncates; the header row is written
only when the file did not previously exist. -/

/-- A line of the log: the header row (with its column names) or a data
row. -/
inductive LogLine where
  | header (cols : List String)
  | data (row : LogRow)

/-- The fixed header columns. -/
def headerCols : List String :=
  ["timestamp_utc", "email", "status", "attempts", "http_status",
    "message_id", "error_preview"]

/-- `ensure_log_writer`: the lines present after opening (and writing the
header iff the file did not previously exist). -/
def ensure_log_writer (file : Option (List LogLine)) : List LogLine :=
  match file with
  | none => [.header headerCols]
  | some lines => lines

/-- One run appending its data rows to the (possibly fresh) log. -/
def appendRun (file : Option (List LogLine)) (rows : List LogRow) :
    List LogLine :=
  ensure_log_writer file ++ rows.map .data

/-- A sequence of runs against the same path, starting from no file. -/
def runsFold (runs : List (List LogRow)) : Option (List LogLine) :=
  runs.foldl (fun f rows => some (appendRun f rows)) none

/-- Is a line the header row? -/
def isHeaderLine : LogLine → Bool
  | .header _ => true
  | .data _ => false

/-- Number of header lines in a log. -/
def countHeaders (lines : List LogLine) : Nat := lines.countP isHeaderLine

/-! ## Loader lemmas -/

/-- Membership in the deduplicated list: present in the input and not
already seen. -/
theorem mem_dedupGo (a : String) :
    ∀ (l seen : List String), a ∈ dedupGo seen l ↔ (a ∈ l ∧ a ∉ seen) := by
  intro l
  induction l with
  | nil => intro seen; simp [dedupGo]
  | cons x xs ih =>
    intro seen
    by_cases hx : x ∈ seen
    · rw [dedupGo, if_pos hx]
      rw [ih seen]
      constructor
      · rintro ⟨ha, hs⟩
        exact ⟨List.mem_cons_of_mem _ ha, hs⟩
      · rintro ⟨ha, hs⟩
        rcases List.mem_cons.mp ha with h | h
        · subst h; exact absurd hx hs
        · exact ⟨h, hs⟩
    · rw [dedupGo, if_neg hx]
      constructor
      · intro ha
        rcases List.mem_cons.mp ha with h | h
        · subst h; exact ⟨List.mem_cons_self _ _, hx⟩
        · have := (ih (x :: seen)).mp h
          refine ⟨List.mem_cons_of_mem _ this.1, fun hs => this.2 ?_⟩
          exact List.mem_cons_of_mem _ hs
      · rintro ⟨ha, hs⟩
        rcases List.mem_cons.mp ha with h | h
        · subst h; exact List.mem_cons_self _ _
        · by_cases hax : a = x
          · subst hax; exact List.mem_cons_self _ _
          · refine List.mem_cons_of_mem _ ((ih (x :: seen)).mpr ⟨h, ?_⟩)
            intro hmem
            rcases List.mem_cons.mp hmem with h' | h'
            · exact hax h'
            · exact hs h'

/-- Deduplication yields a sublist of the input. -/
theorem dedupGo_sublist :
    ∀ (l seen : List String), (dedupGo seen l).Sublist l := by
  intro l
  induction l with
  | nil => intro seen; simp [dedupGo]
  | cons x xs ih =>
    intro seen
    by_cases hx : x ∈ seen
    · rw [dedupGo, if_pos hx]
      exact (ih seen).cons x
    · rw [dedupGo, if_neg hx]
      exact (ih (x :: seen)).cons₂ x

/-- First-occurrence order: the deduplicated list is strictly ordered by
first index in the input. -/
theorem dedupGo_pairwise :
    ∀ (l seen : List String), (dedupGo seen l).Pairwise
      (fun a b => List.indexOf a l < List.indexOf b l) := by
  intro l
  induction l with
  | nil => intro seen; simp [dedupGo]
  | cons x xs ih =>
    intro seen
    by_cases hx : x ∈ seen
    · rw [dedupGo, if_pos hx]
      refine (ih seen).imp_of_mem ?_
      intro a b ha hb hlt
      have ha' := (mem_dedupGo a xs seen).mp ha
      have hb' := (mem_dedupGo b xs seen).mp hb
      have hax : a ≠ x := fun h => ha'.2 (h ▸ hx)
      have hbx : b ≠ x := fun h => hb'.2 (h ▸ hx)
      rw [List.indexOf_cons_ne _ (Ne.symm hax), List.indexOf_cons_ne _ (Ne.symm hbx)]
      omega
    · rw [dedupGo, if_neg hx]
      refine List.Pairwise.cons ?_ ?_
      · intro b hb
        have hb' := (mem_dedupGo b xs (x :: seen)).mp hb
        have hbx : b ≠ x := fun h => hb'.2 (h ▸ List.mem_cons_self x seen)
        rw [List.indexOf_cons_self, List.indexOf_cons_ne _ (Ne.symm hbx)]
        omega
      · refine (ih (x :: seen)).imp_of_mem ?_
        intro a b ha hb hlt
        have ha' := (mem_dedupGo a xs (x :: seen)).mp ha
        have hb' := (mem_dedupGo b xs (x :: seen)).mp hb
        have hax : a ≠ x := fun h => ha'.2 (h ▸ List.mem_cons_self x seen)
        have hbx : b ≠ x := fun h => hb'.2 (h ▸ List.mem_cons_self x seen)
        rw [List.indexOf_cons_ne _ (Ne.symm hax), List.indexOf_cons_ne _ (Ne.symm hbx)]
        omega

/-- An element that does not satisfy the predicate survives `dropWhile`. -/
theorem mem_dropWhile_of_not {α : Type} {p : α → Bool} {a : α} :
    ∀ {l : List α}, a ∈ l → p a = false → a ∈ l.dropWhile p := by
  intro l
  induction l with
  | nil => intro h; simp at h
  | cons x xs ih =>
    intro ha hpa
    rw [List.dropWhile_cons]
    by_cases hpx : p x = true
    · rw [if_pos hpx]
      rcases List.mem_cons.mp ha with h | h
      · subst h; rw [hpa] at hpx; cases hpx
      · exact ih h hpa
    · rw [if_neg hpx]
      exact ha

/-- A string containing `@` is still non-empty after `strip`. -/
theorem pyStrip_ne_empty_of_hasAt {s : String} (h : hasAt s = true) :
    pyStrip s ≠ "" := by
  have hat : '@' ∈ s.data := List.mem_of_elem_eq_true h
  have hsp : isSpaceChar '@' = false := by decide
  have h1 : '@' ∈ s.data.dropWhile isSpaceChar :=
    mem_dropWhile_of_not hat hsp
  have h2 : '@' ∈ (s.data.dropWhile isSpaceChar).reverse :=
    List.mem_reverse.mpr h1
  have h3 : '@' ∈ (s.data.dropWhile isSpaceChar).reverse.dropWhile
      isSpaceChar := mem_dropWhile_of_not h2 hsp
  have h4 : '@' ∈ pyStripL s.data := List.mem_reverse.mpr h3
  intro hempty
  have hdata : pyStripL s.data = [] := congrArg String.data hempty
  rw [hdata] at h4
  exact absurd h4 (List.not_mem_nil _)

/-- A header-mode candidate passes the non-empty and `@` checks. -/
theorem hdrCandidate_valid {fn row : List String} {e : String}
    (h : hdrCandidate fn row = some e) : e ≠ "" ∧ hasAt e = true := by
  unfold hdrCandidate at h
  split at h
  · cases h
  · dsimp only at h
    split at h
    · rename_i hcond
      cases h
      simpa using hcond
    · cases h

/-- A headerless candidate passes the non-empty and `@` checks. -/
theorem firstColCandidate_valid {row : List String} {e : String}
    (h : firstColCandidate row = some e) : e ≠ "" ∧ hasAt e = true := by
  unfold firstColCandidate at h
  split at h
  · cases h
  · dsimp only at h
    split at h
    · rename_i hcond
      cases h
      simp only [Bool.and_eq_true, decide_eq_true_eq] at hcond
      exact ⟨hcond.1.1, hcond.1.2⟩
    · cases h

/-- Every accumulated candidate is non-empty and contains `@`. -/
theorem rawEmails_valid (fl : String) (rows : List (List String)) :
    ∀ e ∈ rawEmails fl rows, e ≠ "" ∧ hasAt e = true := by
  intro e he
  unfold rawEmails at he
  split at he
  · cases rows with
    | nil => simp at he
    | cons fn dataRows =>
      obtain ⟨row, _, hrow⟩ := List.mem_filterMap.mp he
      exact hdrCandidate_valid hrow
  · obtain ⟨row, _, hrow⟩ := List.mem_filterMap.mp he
    exact firstColCandidate_valid hrow

/-- C3: the loader's output has no duplicates, is a sublist of the accepted
candidates containing each of them, is ordered by first occurrence in the
candidate list, and every output address is still non-empty after stripping
and contains `@`. -/
theorem claim3_loader_output (fl : String) (rows : List (List String)) :
    (load_emails fl rows).Nodup
    ∧ (load_emails fl rows).Sublist (rawEmails fl rows)
    ∧ (∀ e, e ∈ load_emails fl rows ↔ e ∈ rawEmails fl rows)
    ∧ (load_emails fl rows).Pairwise
        (fun a b => List.indexOf a (rawEmails fl rows)
          < List.indexOf b (rawEmails fl rows))
    ∧ (∀ e ∈ load_emails fl rows, pyStrip e ≠ "" ∧ hasAt e = true) := by
  have hpw := dedupGo_pairwise (rawEmails fl rows) []
  have hmem : ∀ e, e ∈ load_emails fl rows ↔ e ∈ rawEmails fl rows := by
    intro e
    rw [load_emails, dedup, mem_dedupGo]
    simp
  refine ⟨?_, dedupGo_sublist _ _, hmem, hpw, ?_⟩
  · refine hpw.imp ?_
    intro a b hlt heq
    subst heq
    exact lt_irrefl _ hlt
  · intro e he
    have := rawEmails_valid fl rows e ((hmem e).mp he)
    exact ⟨pyStrip_ne_empty_of_hasAt this.2, this.2⟩

/-- C3 witness: concrete instantiation of the loader theorem. -/
theorem claim3_witness :
    (load_emails "email" [["email"], ["a@b.com"], ["a@b.com"], ["c@d.com"]]).Nodup
    ∧ (∀ e ∈ load_emails "email" [["email"], ["a@b.com"], ["a@b.com"], ["c@d.com"]],
        pyStrip e ≠ "" ∧ hasAt e = true) :=
  ⟨(claim3_loader_output "email" [["email"], ["a@b.com"], ["a@b.com"], ["c@d.com"]]).1,
    (claim3_loader_output "email" [["email"], ["a@b.com"], ["a@b.com"], ["c@d.com"]]).2.2.2.2⟩

/-- Surviving value of a Python `or` chain: it came from one of the two
operands. -/
theorem pyOrS_eq_some {a b : Option String} {v : String}
    (h : pyOrS a b = some v) : a = some v ∨ b = some v := by
  cases a with
  | none => exact Or.inr h
  | some s =>
    by_cases hs : s = ""
    · subst hs
      simp only [pyOrS, if_pos rfl] at h
      exact Or.inr h
    · simp only [pyOrS, if_neg hs] at h
      exact Or.inl h

/-- C4 counterexample: a file whose first line is the header `eMail`
(which contains "email" case-insensitively) and whose data column holds a
valid address loads NO addresses — the claim's case-insensitive column
lookup does not happen; only the exact spellings `email`, `Email`, `EMAIL`
are consulted. -/
theorem claim4_counterexample :
    strContains (pyLower "eMail\n") "email" = true
    ∧ load_emails "eMail\n" [["eMail"], ["alice@example.com"]] = []
    ∧ ([] : List String) ≠ ["alice@example.com"] := by
  refine ⟨by decide, by decide, by decide⟩

/-- C4 (amended): when the first line contains "email" case-insensitively,
the file is processed in header mode, and every loaded address comes from a
column whose header is spelled exactly `email`, `Email` or `EMAIL`. -/
theorem claim4_header_exact (fl : String) (fn : List String)
    (dataRows : List (List String))
    (hhdr : strContains (pyLower fl) "email" = true) :
    ∀ e ∈ load_emails fl (fn :: dataRows),
      ∃ row ∈ dataRows, ∃ nm, (nm = "email" ∨ nm = "Email" ∨ nm = "EMAIL")
        ∧ ∃ v, dget fn row nm = some v ∧ e = pyStrip v := by
  intro e he
  have hraw : e ∈ rawEmails fl (fn :: dataRows) := by
    have := (mem_dedupGo e (rawEmails fl (fn :: dataRows)) []).mp he
    exact this.1
  unfold rawEmails at hraw
  rw [if_pos hhdr] at hraw
  obtain ⟨row, hrowmem, hrow⟩ := List.mem_filterMap.mp hraw
  refine ⟨row, hrowmem, ?_⟩
  unfold hdrCandidate at hrow
  split at hrow
  · cases hrow
  · dsimp only at hrow
    split at hrow
    · rename_i hcond
      cases hrow
      cases hchain : pyOrS (dget fn row "email")
          (pyOrS (dget fn row "Email") (pyOrS (dget fn row "EMAIL") none)) with
      | none =>
        simp [hchain, pyStrip, pyStripL] at hcond
      | some v =>
        rcases pyOrS_eq_some hchain with h1 | h1
        · exact ⟨"email", Or.inl rfl, v, h1, by simp⟩
        · rcases pyOrS_eq_some h1 with h2 | h2
          · exact ⟨"Email", Or.inr (Or.inl rfl), v, h2, by simp⟩
          · rcases pyOrS_eq_some h2 with h3 | h3
            · exact ⟨"EMAIL", Or.inr (Or.inr rfl), v, h3, by simp⟩
            · cases h3
    · cases hrow

/-- C4 witness: an exact-spelling header column is loaded, via the amended
theorem. -/
theorem claim4_witness :
    ∃ row ∈ [["bob@x.com"]], ∃ nm,
      (nm = "email" ∨ nm = "Email" ∨ nm = "EMAIL")
      ∧ ∃ v, dget ["email"] row nm = some v ∧ "bob@x.com" = pyStrip v :=
  claim4_header_exact "email\n" ["email"] [["bob@x.com"]] (by decide)
    "bob@x.com" (by decide)

/-! ## Renderer lemmas -/

/-- `str.replace` is the identity when the pattern's first character never
occurs in the subject. -/
theorem replaceL_no_match {c : Char} {p rep : List Char} :
    ∀ {s : List Char}, (∀ x ∈ s, x ≠ c) → replaceL (c :: p) rep s = s := by
  intro s
  induction s with
  | nil => intro hx; simp [replaceL]
  | cons x rest ih =>
    intro hx
    have hxc : (c == x) = false := by
      refine beq_eq_false_iff_ne.mpr ?_
      exact fun h => (hx x (List.mem_cons_self _ _)) h.symm
    simp only [replaceL]
    rw [dif_neg]
    · rw [ih (fun y hy => hx y (List.mem_cons_of_mem _ hy))]
    · rintro ⟨-, hsw⟩
      rw [startsW, hxc] at hsw
      simp at hsw

/-- Substitution leaves a brace-free string unchanged. -/
theorem substStr_no_brace {s : String} (vars : List (String × String))
    (h : ∀ x ∈ s.data, x ≠ '\x7b') : substStr vars s = s := by
  have aux : ∀ (vs : List (String × String)) (d : List Char),
      (∀ x ∈ d, x ≠ '\x7b') →
      List.foldl (fun acc kv => replaceL (tokenOf kv.1) kv.2.data acc) d vs
        = d := by
    intro vs
    induction vs with
    | nil => intro d _; rfl
    | cons kv rest ih =>
      intro d hd
      rw [List.foldl_cons]
      rw [show replaceL (tokenOf kv.1) kv.2.data d = d from
        replaceL_no_match hd]
      exact ih d hd
  unfold substStr
  rw [aux vars s.data h]

/-- Substitution rewrites an object's bindings pointwise, preserving keys
and lookups. -/
theorem lookup_substKVs {k : String} {kvs : List (String × J)} {v : J}
    (vars : List (String × String)) (h : lookup k kvs = some v) :
    lookup k (substKVs vars kvs) = some (substJ vars v) := by
  induction kvs with
  | nil => simp [lookup] at h
  | cons hd tl ih =>
    obtain ⟨k1, v1⟩ := hd
    simp only [lookup] at h
    simp only [substKVs, lookup]
    by_cases hk : (k1 == k) = true
    · rw [if_pos hk] at h
      rw [if_pos hk]
      cases h
      rfl
    · rw [if_neg hk] at h
      rw [if_neg hk]
      exact ih h

/-- Pruning an object's bindings keeps a string-valued binding unchanged. -/
theorem lookup_pruneFields_str {k s : String} {kvs : List (String × J)}
    (h : lookup k kvs = some (.str s)) :
    lookup k (pruneFields kvs) = some (.str s) := by
  induction kvs with
  | nil => simp [lookup] at h
  | cons hd tl ih =>
    obtain ⟨k1, v1⟩ := hd
    simp only [lookup] at h
    by_cases hk : (k1 == k) = true
    · rw [if_pos hk] at h
      cases h
      simp only [pruneFields]
      rw [if_neg (by simp [isStructured])]
      simp only [lookup]
      rw [if_pos hk]
    · rw [if_neg hk] at h
      simp only [pruneFields]
      by_cases hs : isStructured v1 = true
      · rw [if_pos hs]
        cases hp : prune v1 with
        | none => exact ih h
        | some p =>
          simp only [lookup]
          rw [if_neg hk]
          exact ih h
      · rw [if_neg hs]
        simp only [lookup]
        rw [if_neg hk]
        exact ih h

/-- Pruning a node whose declared type is `AdaptiveCard` only recurses into
the children: none of the dropping branches can fire. -/
theorem prune_adaptive_root {kvs : List (String × J)}
    (h : nodeTy kvs = some "AdaptiveCard") :
    prune (.obj kvs) = some (.obj (pruneFields kvs)) := by
  simp [prune, h]

/-- C5: for every template whose root's declared type is `AdaptiveCard`,
substitution-plus-pruning keeps the root object and its type, and
`load_card_json` succeeds on it; conversely whenever the pruned rendering is
not an `AdaptiveCard` object, `load_card_json` fails fatally. -/
theorem claim5_root_preserved :
    (∀ (t : J) (vars : List (String × String)),
      rootType t = some "AdaptiveCard" →
      ∃ kvs', prune (substJ vars t) = some (.obj kvs')
        ∧ nodeTy kvs' = some "AdaptiveCard"
        ∧ load_card_json t vars = .ok (.obj kvs'))
    ∧ (∀ (t : J) (vars : List (String × String)),
      (∀ kvs, prune (substJ vars t) = some (.obj kvs) →
        nodeTy kvs ≠ some "AdaptiveCard") →
      ∃ msg, load_card_json t vars = .error msg) := by
  constructor
  · intro t vars hroot
    cases t with
    | null => simp [rootType] at hroot
    | bool b => simp [rootType] at hroot
    | num n => simp [rootType] at hroot
    | str s => simp [rootType] at hroot
    | arr xs => simp [rootType] at hroot
    | obj kvs =>
      have hty : lookup "type" kvs = some (.str "AdaptiveCard") := by
        simp only [rootType, nodeTy] at hroot
        cases hl : lookup "type" kvs with
        | none => rw [hl] at hroot; cases hroot
        | some j =>
          rw [hl] at hroot
          cases j with
          | str s =>
            simp at hroot
            subst hroot
            rfl
          | null => simp at hroot
          | bool b => simp at hroot
          | num n => simp at hroot
          | arr xs => simp at hroot
          | obj kvs2 => simp at hroot
      have hsub : lookup "type" (substKVs vars kvs)
          = some (.str "AdaptiveCard") := by
        have := lookup_substKVs vars hty
        rw [this]
        have hac : substStr vars "AdaptiveCard" = "AdaptiveCard" :=
          substStr_no_brace vars (by decide)
        simp [substJ, hac]
      have hnodeTy : nodeTy (substKVs vars kvs) = some "AdaptiveCard" := by
        unfold nodeTy
        rw [hsub]
      have hprune : prune (substJ vars (.obj kvs))
          = some (.obj (pruneFields (substKVs vars kvs))) := by
        rw [show substJ vars (.obj kvs) = .obj (substKVs vars kvs) from rfl]
        exact prune_adaptive_root hnodeTy
      have hty' : nodeTy (pruneFields (substKVs vars kvs))
          = some "AdaptiveCard" := by
        unfold nodeTy
        rw [lookup_pruneFields_str hsub]
      refine ⟨pruneFields (substKVs vars kvs), hprune, hty', ?_⟩
      simp [load_card_json, hprune, hty']
  · intro t vars hnot
    unfold load_card_json
    cases hp : prune (substJ vars t) with
    | none => exact ⟨_, rfl⟩
    | some j =>
      cases j with
      | obj kvs =>
        have hne := hnot kvs hp
        have hbeq : (nodeTy kvs == some "AdaptiveCard") = false :=
          beq_eq_false_iff_ne.mpr hne
        exact ⟨"Card template must be an AdaptiveCard object", by simp [hbeq]⟩
      | null => exact ⟨_, rfl⟩
      | bool b => exact ⟨_, rfl⟩
      | num n => exact ⟨_, rfl⟩
      | str s => exact ⟨_, rfl⟩
      | arr xs => exact ⟨_, rfl⟩

/-- C5 witness: a concrete `AdaptiveCard` template renders successfully with
its root type intact. -/
theorem claim5_witness :
    ∃ kvs', prune (substJ [("due", "x")]
        (.obj [("type", .str "AdaptiveCard")])) = some (.obj kvs')
      ∧ nodeTy kvs' = some "AdaptiveCard"
      ∧ load_card_json (.obj [("type", .str "AdaptiveCard")]) [("due", "x")]
          = .ok (.obj kvs') :=
  claim5_root_preserved.1 (.obj [("type", .str "AdaptiveCard")])
    [("due", "x")] rfl

/-- Looking up the key just overwritten yields the new value. -/
theorem lookup_setKey_self (k : String) (v : J) :
    ∀ kvs : List (String × J), lookup k (setKey k v kvs) = some v := by
  intro kvs
  induction kvs with
  | nil => simp [setKey, lookup]
  | cons hd tl ih =>
    obtain ⟨k1, v1⟩ := hd
    simp only [setKey]
    by_cases hk : (k1 == k) = true
    · rw [if_pos hk]
      simp [lookup]
    · rw [if_neg hk]
      simp only [lookup]
      rw [if_neg hk]
      exact ih

/-- Pruning the bindings maps a structured value whose prune succeeds to
its pruned form, preserving the lookup. -/
theorem lookup_pruneFields_structured {k : String} {kvs : List (String × J)}
    {v w : J} (h : lookup k kvs = some v) (hstr : isStructured v = true)
    (hp : prune v = some w) :
    lookup k (pruneFields kvs) = some w := by
  induction kvs with
  | nil => simp [lookup] at h
  | cons hd tl ih =>
    obtain ⟨k1, v1⟩ := hd
    simp only [lookup] at h
    by_cases hk : (k1 == k) = true
    · rw [if_pos hk] at h
      cases h
      simp only [pruneFields]
      rw [if_pos hstr, hp]
      simp only [lookup]
      rw [if_pos hk]
    · rw [if_neg hk] at h
      simp only [pruneFields]
      by_cases hs : isStructured v1 = true
      · rw [if_pos hs]
        cases hp1 : prune v1 with
        | none => exact ih h
        | some p =>
          simp only [lookup]
          rw [if_neg hk]
          exact ih h
      · rw [if_neg hs]
        simp only [lookup]
        rw [if_neg hk]
        exact ih h

/-- Pruning a plain `title`/`value` fact object is the identity. -/
theorem prune_flat_fact (t v : String) :
    prune (.obj [("title", .str t), ("value", .str v)])
      = some (.obj [("title", .str t), ("value", .str v)]) := by
  simp [prune, nodeTy, lookup, pruneFields, isStructured, pyLen]

/-- Pruning an array of plain facts is the identity. -/
theorem pruneArr_flat :
    ∀ {l : List J},
      (∀ f ∈ l, ∃ t v, f = .obj [("title", .str t), ("value", .str v)]) →
      pruneArr l = l := by
  intro l
  induction l with
  | nil => intro _; simp [pruneArr]
  | cons x xs ih =>
    intro h
    obtain ⟨t, v, rfl⟩ := h x (List.mem_cons_self _ _)
    simp only [pruneArr]
    rw [prune_flat_fact]
    rw [ih (fun f hf => h f (List.mem_cons_of_mem _ hf))]

/-- Unfolding `_prune` on a `FactSet` node with a `facts` array. -/
theorem prune_factset_unfold {kvs : List (String × J)} {facts : List J}
    (hty : nodeTy kvs = some "FactSet")
    (hfacts : lookup "facts" kvs = some (.arr facts)) :
    prune (.obj kvs)
      = (if (facts.filter (fun f => !isBlank (factValue f))).isEmpty then none
        else some (.obj (pruneFields (setKey "facts"
          (.arr (facts.filter (fun f => !isBlank (factValue f)))) kvs)))) := by
  simp [prune, hty]
  split
  · rename_i facts2 hf
    rw [hfacts] at hf
    cases hf
    rfl
  · rename_i hne
    exact absurd hfacts (by intro hc; exact (hne facts hc).elim)

/-- C6: a `FactSet` whose facts all have blank values is pruned away
entirely; one with at least one non-blank fact survives, its `facts` array
reduced to exactly the non-blank facts in their original order. -/
theorem claim6_factset (kvs : List (String × J)) (facts : List J)
    (hty : nodeTy kvs = some "FactSet")
    (hfacts : lookup "facts" kvs = some (.arr facts))
    (hflat : ∀ f ∈ facts, ∃ t v, f = .obj [("title", .str t), ("value", .str v)]) :
    ((∀ f ∈ facts, isBlank (factValue f) = true) → prune (.obj kvs) = none)
    ∧ (∀ f0 ∈ facts, isBlank (factValue f0) = false →
        ∃ kvs', prune (.obj kvs) = some (.obj kvs')
          ∧ lookup "facts" kvs' =
              some (.arr (facts.filter (fun f => !isBlank (factValue f))))) := by
  have hunf := prune_factset_unfold hty hfacts
  constructor
  · intro hall
    rw [hunf]
    rw [if_pos]
    rw [List.isEmpty_iff, List.filter_eq_nil_iff]
    intro f hf
    rw [hall f hf]
    simp
  · intro f0 hf0 hnb
    have hmemf : f0 ∈ facts.filter (fun f => !isBlank (factValue f)) :=
      List.mem_filter.mpr ⟨hf0, by rw [hnb]; rfl⟩
    have hne : ¬(facts.filter (fun f => !isBlank (factValue f))).isEmpty
        = true := by
      rw [List.isEmpty_iff]
      intro hnil
      rw [hnil] at hmemf
      exact absurd hmemf (List.not_mem_nil _)
    rw [hunf, if_neg hne]
    refine ⟨_, rfl, ?_⟩
    have hset := lookup_setKey_self "facts"
      (.arr (facts.filter (fun f => !isBlank (factValue f)))) kvs
    have hprunearr : prune (.arr (facts.filter
        (fun f => !isBlank (factValue f))))
        = some (.arr (facts.filter (fun f => !isBlank (factValue f)))) := by
      simp only [prune]
      rw [pruneArr_flat (fun f hf => hflat f (List.mem_of_mem_filter hf))]
    exact lookup_pruneFields_structured hset rfl hprunearr

/-- C6 witness: a concrete two-fact `FactSet` with one blank value keeps
exactly the non-blank fact. -/
theorem claim6_witness :
    ∃ kvs', prune (.obj [("type", .str "FactSet"),
        ("facts", .arr [.obj [("title", .str "A"), ("value", .str " ")],
          .obj [("title", .str "B"), ("value", .str "v")]])])
      = some (.obj kvs')
    ∧ lookup "facts" kvs' = some (.arr
        ([.obj [("title", .str "A"), ("value", .str " ")],
          .obj [("title", .str "B"), ("value", .str "v")]].filter
            (fun f => !isBlank (factValue f)))) :=
  (claim6_factset
    [("type", .str "FactSet"),
      ("facts", .arr [.obj [("title", .str "A"), ("value", .str " ")],
        .obj [("title", .str "B"), ("value", .str "v")]])]
    [.obj [("title", .str "A"), ("value", .str " ")],
      .obj [("title", .str "B"), ("value", .str "v")]]
    rfl rfl
    (by
      intro f hf
      rcases List.mem_cons.mp hf with h | h
      · exact ⟨"A", " ", h⟩
      · rcases List.mem_cons.mp h with h2 | h2
        · exact ⟨"B", "v", h2⟩
        · exact absurd h2 (List.not_mem_nil _))).2
    (.obj [("title", .str "B"), ("value", .str "v")])
    (by simp) rfl

/-! ## Retry-loop lemmas -/

/-- The live loop consults the script only at the attempt numbers it
visits. -/
theorem attemptLoop_congr {scr scrB : Nat → AttemptResult} :
    ∀ (l : List Nat) (st : LoopState), (∀ i ∈ l, scrB i = scr i) →
      attemptLoop false scrB l st = attemptLoop false scr l st := by
  intro l
  induction l with
  | nil => intro st _; rfl
  | cons i rest ih =>
    intro st hag
    have hagr := fun j hj => hag j (List.mem_cons_of_mem _ hj)
    simp only [attemptLoop, hag i (List.mem_cons_self _ _),
      Bool.false_eq_true, if_false]
    cases hscr0 : scr i with
    | resp s t b =>
      dsimp only
      by_cases hs : (s == 200 || s == 201) = true
      · rw [if_pos hs, if_pos hs]
      · rw [if_neg hs, if_neg hs]
        exact ih _ hagr
    | exc m =>
      dsimp only
      exact ih _ hagr

/-- The dry-run loop never consults the script at all. -/
theorem attemptLoop_dry_congr {scr scrB : Nat → AttemptResult} :
    ∀ (l : List Nat) (st : LoopState),
      attemptLoop true scrB l st = attemptLoop true scr l st := by
  intro l
  induction l with
  | nil => intro st; rfl
  | cons i rest ih => intro st; rfl

/-- Running the loop through failing attempts keeps `ok` false and lets the
remainder of the loop be analysed from the intermediate state. -/
theorem attemptLoop_all_fail {scr : Nat → AttemptResult} :
    ∀ (l : List Nat) (st : LoopState), st.ok = false →
      (∀ i ∈ l, isFailure (scr i) = true) →
      (attemptLoop false scr l st).ok = false
      ∧ ∀ l2, attemptLoop false scr (l ++ l2) st
          = attemptLoop false scr l2 (attemptLoop false scr l st) := by
  intro l
  induction l with
  | nil => intro st hok _; exact ⟨hok, fun l2 => rfl⟩
  | cons i rest ih =>
    intro st hok hfail
    have hfi := hfail i (List.mem_cons_self _ _)
    have hrest := fun j hj => hfail j (List.mem_cons_of_mem _ hj)
    cases hscr : scr i with
    | resp s t b =>
      have hs : (s == 200 || s == 201) = false := by
        rw [hscr] at hfi
        simp only [isFailure] at hfi
        simpa using hfi
      constructor
      · simp only [attemptLoop, hscr, Bool.false_eq_true, if_false]
        rw [if_neg (by simp [hs])]
        exact (ih { st with attempts := i, lastStatus := some s, errorPreview := truncPreview t } hok hrest).1
      · intro l2
        simp only [List.cons_append, attemptLoop, hscr, Bool.false_eq_true,
          if_false]
        rw [if_neg (by simp [hs]), if_neg (by simp [hs])]
        exact (ih { st with attempts := i, lastStatus := some s, errorPreview := truncPreview t } hok hrest).2 l2
    | exc m =>
      constructor
      · simp only [attemptLoop, hscr, Bool.false_eq_true, if_false]
        exact (ih { st with attempts := i, errorPreview := truncPreview m } hok hrest).1
      · intro l2
        simp only [List.cons_append, attemptLoop, hscr, Bool.false_eq_true,
          if_false]
        exact (ih { st with attempts := i, errorPreview := truncPreview m } hok hrest).2 l2

/-- A successful attempt ends the loop immediately with the fully
determined success state. -/
theorem attemptLoop_success_cons {scr : Nat → AttemptResult} {i s : Nat}
    {t : String} {b : Option (List (String × J))} (rest : List Nat)
    (st : LoopState) (hscr : scr i = .resp s t b)
    (hs : (s == 200 || s == 201) = true) :
    attemptLoop false scr (i :: rest) st
      = { st with
          attempts := i
          lastStatus := some s
          ok := true
          messageId := respMsgId (.resp s t b) } := by
  simp only [attemptLoop, hscr, Bool.false_eq_true, if_false]
  rw [if_pos hs]

/-- Exhausting attempts `l ++ [i]` with every attempt failing yields a
final state with `ok` false, `attempts = i`, the last preview, and (for a
response failure) the last status. -/
theorem attemptLoop_all_fail_last {scr : Nat → AttemptResult} :
    ∀ (l : List Nat) (i : Nat) (st : LoopState), st.ok = false →
      (∀ j ∈ l ++ [i], isFailure (scr j) = true) →
      (attemptLoop false scr (l ++ [i]) st).ok = false
      ∧ (attemptLoop false scr (l ++ [i]) st).attempts = i
      ∧ (attemptLoop false scr (l ++ [i]) st).errorPreview
          = truncPreview (errText (scr i))
      ∧ (∀ s t b, scr i = .resp s t b →
          (attemptLoop false scr (l ++ [i]) st).lastStatus = some s) := by
    intro l i st hok hfail
    have hsplit := attemptLoop_all_fail l st hok
      (fun j hj => hfail j (List.mem_append_left _ hj))
    have hfi : isFailure (scr i) = true :=
      hfail i (List.mem_append_right _ (List.mem_cons_self _ _))
    rw [hsplit.2 [i]]
    cases hscr : scr i with
    | resp s t b =>
      have hs : (s == 200 || s == 201) = false := by
        rw [hscr] at hfi
        simp only [isFailure] at hfi
        simpa using hfi
      have hstep : attemptLoop false scr [i] (attemptLoop false scr l st)
          = { attemptLoop false scr l st with attempts := i, lastStatus := some s, errorPreview := truncPreview t } := by
        simp only [attemptLoop, hscr, Bool.false_eq_true, if_false]
        rw [if_neg (by simp [hs])]
      rw [hstep]
      refine ⟨hsplit.1, rfl, rfl, ?_⟩
      intro s2 t2 b2 heq
      cases heq
      rfl
    | exc m =>
      have hstep : attemptLoop false scr [i] (attemptLoop false scr l st)
          = { attemptLoop false scr l st with attempts := i, errorPreview := truncPreview m } := by
        simp only [attemptLoop, hscr, Bool.false_eq_true, if_false]
      rw [hstep]
      refine ⟨hsplit.1, rfl, rfl, ?_⟩
      intro s2 t2 b2 heq
      cases heq

/-- C1: if attempts `1..k` fail and attempt `k+1` returns 200/201 (with
`k < R`), the recipient is recorded `sent` with `attempts = k+1`; the
message id comes from the response body's `id` field (empty when the body
is absent or unparseable), the logged status is the successful one, and the
script beyond attempt `k+1` is never consulted. -/
theorem claim1_retry_then_success (scr : Nat → AttemptResult) (R k : Nat)
    (e : String) (hk : k < R)
    (hfail : ∀ i, 1 ≤ i → i ≤ k → isFailure (scr i) = true)
    (hsucc : isSuccess (scr (k + 1)) = true) :
    (outcomeOf (processRecipient false scr R) e).status = "sent"
    ∧ (outcomeOf (processRecipient false scr R) e).attempts = k + 1
    ∧ (outcomeOf (processRecipient false scr R) e).messageId
        = respMsgId (scr (k + 1))
    ∧ (∀ s t b, scr (k + 1) = .resp s t b →
        (outcomeOf (processRecipient false scr R) e).httpStatus = some s)
    ∧ (outcomeOf (processRecipient false scr R) e).errorPreview = ""
    ∧ (∀ scrB : Nat → AttemptResult, (∀ i, i ≤ k + 1 → scrB i = scr i) →
        processRecipient false scrB R = processRecipient false scr R) := by
  obtain ⟨s, t, b, hscr, hs⟩ : ∃ s t b, scr (k + 1) = .resp s t b
      ∧ (s == 200 || s == 201) = true := by
    cases hscr : scr (k + 1) with
    | resp s t b =>
      rw [hscr] at hsucc
      simp only [isSuccess] at hsucc
      exact ⟨s, t, b, rfl, hsucc⟩
    | exc m =>
      rw [hscr] at hsucc
      simp only [isSuccess] at hsucc
      cases hsucc
  have hdec : List.range' 1 R = List.range' 1 k ++ (k + 1)
      :: List.range' (k + 2) (R - k - 1) := by
    have h1 : List.range' 1 k ++ List.range' (1 + k) (R - k)
        = List.range' 1 R := by
      have := List.range'_append 1 k (R - k) 1
      simpa [show (R - k) + k = R by omega] using this
    rw [← h1]
    have h2 : List.range' (1 + k) (R - k)
        = (k + 1) :: List.range' (k + 2) (R - k - 1) := by
      have h3 : R - k = (R - k - 1) + 1 := by omega
      rw [h3, List.range'_succ]
      congr 1
      · omega
      · congr 1
        omega
    rw [h2]
  have hfail' : ∀ j ∈ List.range' 1 k, isFailure (scr j) = true := by
    intro j hj
    rw [List.mem_range'] at hj
    obtain ⟨i2, hi2, rfl⟩ := hj
    exact hfail _ (by omega) (by omega)
  have hsplit := @attemptLoop_all_fail scr (List.range' 1 k)
    initState rfl hfail'
  have hfinal : processRecipient false scr R
      = { attemptLoop false scr (List.range' 1 k) initState with
          attempts := k + 1
          lastStatus := some s
          ok := true
          messageId := respMsgId (.resp s t b) } := by
    rw [processRecipient, hdec, hsplit.2]
    exact attemptLoop_success_cons _ _ hscr hs
  constructor
  · rw [hfinal, outcomeOf]
    rw [if_pos rfl]
  constructor
  · rw [hfinal, outcomeOf]
    rw [if_pos rfl]
  constructor
  · rw [hfinal, outcomeOf, hscr]
    rw [if_pos rfl]
  constructor
  · intro s2 t2 b2 heq
    rw [hscr] at heq
    cases heq
    rw [hfinal, outcomeOf]
    rw [if_pos rfl]
  constructor
  · rw [hfinal, outcomeOf]
    rw [if_pos rfl]
  · intro scrB hag
    have hagk : ∀ j ∈ List.range' 1 k, scrB j = scr j := by
      intro j hj
      rw [List.mem_range'] at hj
      obtain ⟨i2, hi2, rfl⟩ := hj
      exact hag _ (by omega)
    have hfailB : ∀ j ∈ List.range' 1 k, isFailure (scrB j) = true := by
      intro j hj
      rw [hagk j hj]
      exact hfail' j hj
    have hsplitB := @attemptLoop_all_fail scrB (List.range' 1 k)
      initState rfl hfailB
    have hstateB : attemptLoop false scrB (List.range' 1 k) initState
        = attemptLoop false scr (List.range' 1 k) initState :=
      attemptLoop_congr _ _ hagk
    rw [processRecipient, processRecipient, hdec, hsplit.2, hsplitB.2,
      hstateB]
    rw [attemptLoop_success_cons _ _ hscr hs,
      attemptLoop_success_cons _ _ (by rw [hag (k + 1) (by omega)]; exact hscr) hs]

/-- C1 witness: 500 on attempts 1 and 2, 200 with a body id on attempt 3. -/
theorem claim1_witness :
    (outcomeOf (processRecipient false
      (fun i => if i == 3 then .resp 200 "ok" (some [("id", .str "M1")])
        else .resp 500 "boom" none) 3) "a@b").status = "sent"
    ∧ (outcomeOf (processRecipient false
      (fun i => if i == 3 then .resp 200 "ok" (some [("id", .str "M1")])
        else .resp 500 "boom" none) 3) "a@b").attempts = 3 :=
  ⟨(claim1_retry_then_success
      (fun i => if i == 3 then .resp 200 "ok" (some [("id", .str "M1")])
        else .resp 500 "boom" none) 3 2 "a@b" (by decide)
      (by intro i h1 h2; interval_cases i <;> decide) (by decide)).1,
    (claim1_retry_then_success
      (fun i => if i == 3 then .resp 200 "ok" (some [("id", .str "M1")])
        else .resp 500 "boom" none) 3 2 "a@b" (by decide)
      (by intro i h1 h2; interval_cases i <;> decide) (by decide)).2.1⟩

/-- The preview text is at most 300 characters. -/
theorem truncPreview_length (s : String) :
    (truncPreview s).data.length ≤ 300 := by
  unfold truncPreview
  simp only [List.length_map, List.length_take]
  exact min_le_left _ _

/-- The preview text contains no newline: each is flattened to a space. -/
theorem truncPreview_no_newline (s : String) :
    ∀ c ∈ (truncPreview s).data, c ≠ '\n' := by
  intro c hc
  unfold truncPreview at hc
  obtain ⟨a, _, rfl⟩ := List.mem_map.mp hc
  by_cases ha : (a == '\n') = true
  · rw [if_pos ha]
    decide
  · rw [if_neg ha]
    intro heq
    subst heq
    simp at ha

/-- The batches tile the recipient list exactly. -/
theorem chunked_flatten (l : List String) (B : Nat) (hB : 0 < B) :
    (chunked l B).flatten = l := by
  revert hB
  induction l, B using chunked.induct with
  | case1 B =>
    intro hB
    simp [chunked]
  | case2 x xs =>
    intro hB
    omega
  | case3 x xs size hsz ih =>
    intro hB
    rw [chunked, if_neg hsz]
    rw [List.flatten_cons, ih hB]
    exact List.take_append_drop _ _

/-- A batch yields exactly one row per recipient. -/
theorem processBatch_length (dry : Bool) (scr : String → Nat → AttemptResult)
    (R : Nat) (batch : List String) :
    (processBatch dry scr R batch).length = batch.length :=
  List.length_map _ _

/-- The batch loop yields one row per recipient of the remaining batches. -/
theorem runBatches_rows_length (dry : Bool)
    (scr : String → Nat → AttemptResult) (R B total : Nat) :
    ∀ (bs : List (List String)) (idx : Nat),
      (runBatches dry scr R B total idx bs).1.length = bs.flatten.length := by
  intro bs
  induction bs with
  | nil => intro idx; rfl
  | cons batch rest ih =>
    intro idx
    simp only [runBatches, List.flatten_cons, List.length_append,
      processBatch_length]
    rw [ih (idx + 1)]

/-- A run writes exactly one log row per loaded recipient. -/
theorem runMain_rows_length (dry : Bool)
    (scr : String → Nat → AttemptResult) (R B : Nat)
    (emails : List String) (hB : 0 < B) :
    (runMain dry scr R B emails).rows.length = emails.length := by
  unfold runMain
  rw [runBatches_rows_length]
  rw [chunked_flatten emails B hB]

/-- C2: when all `R` attempts fail, the recipient is recorded `failed` with
`attempts = R`, keeping only the last attempt's preview (at most 300
characters, newline-free) and, for a response failure, the last status; a
recipient's failure never prevents rows for the other recipients. -/
theorem claim2_all_attempts_fail (scr : Nat → AttemptResult) (R : Nat)
    (e : String) (hR : 0 < R)
    (hfail : ∀ i, 1 ≤ i → i ≤ R → isFailure (scr i) = true) :
    (outcomeOf (processRecipient false scr R) e).status = "failed"
    ∧ (outcomeOf (processRecipient false scr R) e).attempts = R
    ∧ (outcomeOf (processRecipient false scr R) e).errorPreview
        = truncPreview (errText (scr R))
    ∧ (∀ s t b, scr R = .resp s t b →
        (outcomeOf (processRecipient false scr R) e).httpStatus = some s)
    ∧ (outcomeOf (processRecipient false scr R) e).errorPreview.data.length
        ≤ 300
    ∧ (∀ c ∈ (outcomeOf (processRecipient false scr R) e).errorPreview.data,
        c ≠ '\n')
    ∧ (∀ (scrAll : String → Nat → AttemptResult) (B : Nat)
        (emails : List String), 0 < B →
        (runMain false scrAll R B emails).rows.length = emails.length) := by
  have hdec : List.range' 1 R = List.range' 1 (R - 1) ++ [R] := by
    have h1 := List.range'_append 1 (R - 1) 1 1
    rw [show 1 + 1 * (R - 1) = R by omega] at h1
    rw [show 1 + (R - 1) = R by omega] at h1
    rw [← h1, List.range'_one]
  have hfail' : ∀ j ∈ List.range' 1 (R - 1) ++ [R],
      isFailure (scr j) = true := by
    intro j hj
    rcases List.mem_append.mp hj with hj | hj
    · rw [List.mem_range'] at hj
      obtain ⟨i2, hi2, rfl⟩ := hj
      exact hfail _ (by omega) (by omega)
    · rw [List.mem_singleton] at hj
      subst hj
      exact hfail _ (by omega) (by omega)
  have hlast := @attemptLoop_all_fail_last scr
    (List.range' 1 (R - 1)) R initState rfl hfail'
  have hrow : processRecipient false scr R
      = attemptLoop false scr (List.range' 1 (R - 1) ++ [R]) initState := by
    rw [processRecipient, hdec]
  have hok : (processRecipient false scr R).ok = false := by
    rw [hrow]; exact hlast.1
  have hout : outcomeOf (processRecipient false scr R) e
      = ⟨e, "failed", (processRecipient false scr R).attempts,
        (processRecipient false scr R).lastStatus,
        (processRecipient false scr R).messageId,
        (processRecipient false scr R).errorPreview⟩ := by
    rw [outcomeOf, if_neg (by rw [hok]; exact Bool.false_ne_true)]
  refine ⟨by rw [hout], ?_, ?_, ?_, ?_, ?_, ?_⟩
  · rw [hout]
    show (processRecipient false scr R).attempts = R
    rw [hrow]
    exact hlast.2.1
  · rw [hout]
    show (processRecipient false scr R).errorPreview
      = truncPreview (errText (scr R))
    rw [hrow]
    exact hlast.2.2.1
  · intro s t b hscr
    rw [hout]
    show (processRecipient false scr R).lastStatus = some s
    rw [hrow]
    exact hlast.2.2.2 s t b hscr
  · rw [hout]
    show (processRecipient false scr R).errorPreview.data.length ≤ 300
    rw [hrow, hlast.2.2.1]
    exact truncPreview_length _
  · rw [hout]
    intro c hc
    rw [hrow, hlast.2.2.1] at hc
    exact truncPreview_no_newline _ c hc
  · intro scrAll B emails hB
    exact runMain_rows_length false scrAll R B emails hB

/-- C2 witness: status 500 on every one of 3 attempts. -/
theorem claim2_witness :
    (outcomeOf (processRecipient false
      (fun _ => .resp 500 "err\nX" none) 3) "a@b").status = "failed"
    ∧ (outcomeOf (processRecipient false
      (fun _ => .resp 500 "err\nX" none) 3) "a@b").attempts = 3 :=
  ⟨(claim2_all_attempts_fail (fun _ => .resp 500 "err\nX" none) 3 "a@b"
      (by decide) (fun i h1 h2 => rfl)).1,
    (claim2_all_attempts_fail (fun _ => .resp 500 "err\nX" none) 3 "a@b"
      (by decide) (fun i h1 h2 => rfl)).2.1⟩

/-- The dry-run loop never looks at the transport script. -/
theorem processRecipient_dry_congr (scr scrB : Nat → AttemptResult)
    (R : Nat) :
    processRecipient true scr R = processRecipient true scrB R := by
  unfold processRecipient
  exact attemptLoop_dry_congr _ _

/-- With at least one configured attempt, dry-run ends after the first
attempt in the fixed synthetic success state. -/
theorem processRecipient_dry (scr : Nat → AttemptResult) (R : Nat)
    (hR : 0 < R) :
    processRecipient true scr R
      = ⟨1, some 200, .str "(dry-run)", "", true⟩ := by
  unfold processRecipient
  have hdec : List.range' 1 R = 1 :: List.range' 2 (R - 1) := by
    conv_lhs => rw [show R = (R - 1) + 1 by omega]
    rw [List.range'_succ]
  rw [hdec]
  rfl

/-- The whole dry-run batch loop is independent of the transport script. -/
theorem runBatches_dry_congr (scr scrB : String → Nat → AttemptResult)
    (R B total : Nat) :
    ∀ (bs : List (List String)) (idx : Nat),
      runBatches true scr R B total idx bs
        = runBatches true scrB R B total idx bs := by
  intro bs
  induction bs with
  | nil => intro idx; rfl
  | cons batch rest ih =>
    intro idx
    simp only [runBatches, processBatch]
    rw [ih (idx + 1)]
    rw [show (fun e => outcomeOf (processRecipient true (scr e) R) e)
        = (fun e => outcomeOf (processRecipient true (scrB e) R) e) from
      funext (fun e => by
        rw [processRecipient_dry_congr (scr e) (scrB e)])]

/-- Every row of the batch loop is the outcome of one scripted recipient. -/
theorem runBatches_rows_mem (dry : Bool)
    (scr : String → Nat → AttemptResult) (R B total : Nat) :
    ∀ (bs : List (List String)) (idx : Nat) (row : LogRow),
      row ∈ (runBatches dry scr R B total idx bs).1 →
      ∃ e2, row = outcomeOf (processRecipient dry (scr e2) R) e2 := by
  intro bs
  induction bs with
  | nil => intro idx row h; simp [runBatches] at h
  | cons batch rest ih =>
    intro idx row h
    simp only [runBatches] at h
    rcases List.mem_append.mp h with h | h
    · obtain ⟨e2, _, heq⟩ := List.mem_map.mp h
      exact ⟨e2, heq.symm⟩
    · exact ih (idx + 1) row h

/-- C8: in dry-run mode the transport script is never consulted (the run
result is independent of it), and every recipient's row is `sent` on the
first attempt with synthetic status 200 and the sentinel id `(dry-run)`. -/
theorem claim8_dry_run (scr scrB : String → Nat → AttemptResult)
    (R B : Nat) (hR : 0 < R) (hB : 0 < B) (emails : List String) :
    runMain true scr R B emails = runMain true scrB R B emails
    ∧ ∀ row ∈ (runMain true scr R B emails).rows,
        row.status = "sent" ∧ row.attempts = 1
        ∧ row.messageId = .str "(dry-run)" ∧ row.httpStatus = some 200
        ∧ row.errorPreview = "" := by
  constructor
  · unfold runMain
    rw [runBatches_dry_congr scr scrB]
  · intro row hrow
    obtain ⟨e2, heq⟩ := runBatches_rows_mem true scr R B emails.length
      (chunked emails B) 0 row hrow
    rw [heq, processRecipient_dry (scr e2) R hR]
    exact ⟨rfl, rfl, rfl, rfl, rfl⟩

/-- C8 witness: two different scripts, same dry-run result, all rows
synthetic successes. -/
theorem claim8_witness :
    runMain true (fun _ _ => .exc "net down") 3 10 ["a@b", "c@d"]
      = runMain true (fun _ _ => .resp 500 "boom" none) 3 10 ["a@b", "c@d"]
    ∧ ∀ row ∈ (runMain true (fun _ _ => .exc "net down") 3 10
        ["a@b", "c@d"]).rows,
        row.status = "sent" ∧ row.attempts = 1
        ∧ row.messageId = .str "(dry-run)" ∧ row.httpStatus = some 200
        ∧ row.errorPreview = "" :=
  claim8_dry_run (fun _ _ => .exc "net down")
    (fun _ _ => .resp 500 "boom" none) 3 10 (by decide) (by decide)
    ["a@b", "c@d"]

/-! ## Batch-shape lemmas -/

/-- The number of batches is the ceiling of recipients over batch size. -/
theorem chunked_length (l : List String) (B : Nat) (hB : 0 < B) :
    (chunked l B).length = (l.length + B - 1) / B := by
  revert hB
  induction l, B using chunked.induct with
  | case1 B =>
    intro hB
    simp only [chunked, List.length_nil]
    rw [Nat.div_eq_of_lt (by omega)]
  | case2 x xs =>
    intro hB
    omega
  | case3 x xs size hsz ih =>
    intro hB
    rw [chunked, if_neg hsz]
    rw [show (List.take size (x :: xs)
        :: chunked (List.drop size (x :: xs)) size).length
      = (chunked (List.drop size (x :: xs)) size).length + 1 from
      List.length_cons _ _]
    rw [ih hB, List.length_drop]
    set m := (x :: xs).length with hm
    have hm1 : 1 ≤ m := by
      rw [hm]
      simp
    by_cases hcase : m ≤ size
    · rw [show m - size = 0 by omega]
      rw [show (0 : Nat) + size - 1 = size - 1 by omega]
      rw [Nat.div_eq_of_lt (by omega)]
      rw [show (m + size - 1) / size = 1 from
        Nat.div_eq_of_lt_le (by omega) (by omega)]
    · rw [show m - size + size - 1 = m - 1 by omega]
      rw [show m + size - 1 = (m - 1) + size by omega]
      rw [Nat.add_div_right _ hB]

/-- Every batch is non-empty and no longer than the batch size. -/
theorem chunked_mem (l : List String) (B : Nat) (hB : 0 < B) :
    ∀ b ∈ chunked l B, b.length ≤ B ∧ b ≠ [] := by
  revert hB
  induction l, B using chunked.induct with
  | case1 B =>
    intro hB b hb
    simp [chunked] at hb
  | case2 x xs =>
    intro hB
    omega
  | case3 x xs size hsz ih =>
    intro hB b hb
    rw [chunked, if_neg hsz] at hb
    rcases List.mem_cons.mp hb with h | h
    · subst h
      refine ⟨by rw [List.length_take]; exact min_le_left _ _, ?_⟩
      rw [show size = (size - 1) + 1 by omega, List.take_succ_cons]
      simp
    · exact ih hB b h

/-- Every batch except possibly the last has exactly the batch size. -/
theorem chunked_dropLast (l : List String) (B : Nat) (hB : 0 < B) :
    ∀ b ∈ (chunked l B).dropLast, b.length = B := by
  revert hB
  induction l, B using chunked.induct with
  | case1 B =>
    intro hB b hb
    simp [chunked] at hb
  | case2 x xs =>
    intro hB
    omega
  | case3 x xs size hsz ih =>
    intro hB b hb
    rw [chunked, if_neg hsz] at hb
    by_cases hrest : chunked ((x :: xs).drop size) size = []
    · rw [hrest] at hb
      simp at hb
    · rw [List.dropLast_cons_of_ne_nil hrest] at hb
      rcases List.mem_cons.mp hb with h | h
      · subst h
        have hdrop : (x :: xs).drop size ≠ [] := by
          intro hnil
          rw [hnil] at hrest
          exact hrest (by simp [chunked])
        have hlen : size ≤ (x :: xs).length := by
          by_contra hlt
          push_neg at hlt
          exact hdrop (List.drop_eq_nil_of_le (by omega))
        rw [List.length_take]
        exact min_eq_left hlen
      · exact ih hB b h

/-- The pause condition of the source, characterised per batch index. -/
theorem pause_iff (N B : Nat) (hB : 0 < B) (i : Nat) (h1 : 1 ≤ i)
    (h2 : i ≤ (N + B - 1) / B) :
    (i * B < N ↔ i < (N + B - 1) / B) := by
  have hdm := Nat.div_add_mod (N + B - 1) B
  have hmod : (N + B - 1) % B < B := Nat.mod_lt _ hB
  constructor
  · intro hlt
    by_contra hge
    push_neg at hge
    have hiK : i = (N + B - 1) / B := le_antisymm h2 hge
    rw [hiK, mul_comm] at hlt
    generalize hq : B * ((N + B - 1) / B) = q at hdm hlt
    omega
  · intro hlt
    have hstep : B * (i + 1) ≤ B * ((N + B - 1) / B) :=
      Nat.mul_le_mul_left B (Nat.succ_le_of_lt hlt)
    rw [Nat.mul_succ] at hstep
    rw [mul_comm i B]
    generalize hq : B * ((N + B - 1) / B) = q at hdm hstep
    generalize hp : B * i = p at hstep ⊢
    omega

/-- The inter-batch sleeps fired by the batch loop, characterised by the
source's arithmetic condition. -/
theorem runBatches_pauses_mem (dry : Bool)
    (scr : String → Nat → AttemptResult) (R B total : Nat) :
    ∀ (bs : List (List String)) (idx i : Nat),
      (i ∈ (runBatches dry scr R B total idx bs).2
        ↔ (idx + 1 ≤ i ∧ i ≤ idx + bs.length ∧ i * B < total)) := by
  intro bs
  induction bs with
  | nil =>
    intro idx i
    simp [runBatches]
    omega
  | cons batch rest ih =>
    intro idx i
    simp only [runBatches, List.mem_append]
    constructor
    · rintro (h | h)
      · by_cases hc : (idx + 1) * B < total
        · rw [if_pos hc] at h
          rw [List.mem_singleton] at h
          subst h
          exact ⟨le_refl _, by simp only [List.length_cons]; omega, hc⟩
        · rw [if_neg hc] at h
          simp at h
      · have h3 := (ih (idx + 1) i).mp h
        exact ⟨by omega, by simp only [List.length_cons]; omega, h3.2.2⟩
    · rintro ⟨h1, h2, h3⟩
      by_cases heq : i = idx + 1
      · subst heq
        left
        rw [if_pos h3]
        exact List.mem_singleton.mpr rfl
      · right
        refine (ih (idx + 1) i).mpr ⟨by omega, ?_, h3⟩
        simp only [List.length_cons] at h2
        omega

/-- C7: the batch loop partitions the recipients into ceiling-many
contiguous batches (all of the configured size except a shorter last one),
and the inter-batch pause fires after batch `i` iff `i * B < N`, which for
`1 ≤ i ≤ #batches` holds exactly for the non-final batches. -/
theorem claim7_batching (l : List String) (B : Nat) (hB : 0 < B) :
    (chunked l B).length = (l.length + B - 1) / B
    ∧ (chunked l B).flatten = l
    ∧ (∀ b ∈ (chunked l B).dropLast, b.length = B)
    ∧ (∀ b ∈ chunked l B, b.length ≤ B ∧ b ≠ [])
    ∧ (∀ i, 1 ≤ i → i ≤ (chunked l B).length →
        (i * B < l.length ↔ i < (chunked l B).length))
    ∧ (∀ (dry : Bool) (scr : String → Nat → AttemptResult) (R i : Nat),
        i ∈ (runMain dry scr R B l).pausesAfter
          ↔ (1 ≤ i ∧ i < (chunked l B).length)) := by
  refine ⟨chunked_length l B hB, chunked_flatten l B hB,
    chunked_dropLast l B hB, chunked_mem l B hB, ?_, ?_⟩
  · intro i h1 h2
    rw [chunked_length l B hB] at h2 ⊢
    exact pause_iff l.length B hB i h1 h2
  · intro dry scr R i
    unfold runMain
    rw [show (⟨(runBatches dry scr R B l.length 0 (chunked l B)).1,
        (runBatches dry scr R B l.length 0 (chunked l B)).1.countP
          (fun r => r.status == "sent"),
        (runBatches dry scr R B l.length 0 (chunked l B)).1.countP
          (fun r => r.status == "failed"),
        (runBatches dry scr R B l.length 0 (chunked l B)).2⟩
        : RunResult).pausesAfter
      = (runBatches dry scr R B l.length 0 (chunked l B)).2 from rfl]
    rw [runBatches_pauses_mem dry scr R B l.length (chunked l B) 0 i]
    constructor
    · rintro ⟨ha, hb2, hc⟩
      refine ⟨ha, ?_⟩
      rw [chunked_length l B hB]
      have h2 : i ≤ (l.length + B - 1) / B := by
        rw [chunked_length l B hB] at hb2
        omega
      exact (pause_iff l.length B hB i ha h2).mp hc
    · rintro ⟨ha, hb2⟩
      refine ⟨ha, by omega, ?_⟩
      rw [chunked_length l B hB] at hb2
      exact (pause_iff l.length B hB i ha (by omega)).mpr hb2

/-- C7 witness: 23 recipients, batch size 10: three batches of sizes 10,
10, 3, with pauses after batches 1 and 2 only. -/
theorem claim7_witness :
    (chunked (List.replicate 23 "e@x") 10).length
      = ((List.replicate 23 "e@x").length + 10 - 1) / 10
    ∧ (∀ i, 1 ≤ i → i ≤ (chunked (List.replicate 23 "e@x") 10).length →
        (i * 10 < (List.replicate 23 "e@x").length
          ↔ i < (chunked (List.replicate 23 "e@x") 10).length)) :=
  ⟨(claim7_batching (List.replicate 23 "e@x") 10 (by decide)).1,
    (claim7_batching (List.replicate 23 "e@x") 10 (by decide)).2.2.2.2.1⟩

/-! ## Logger lemmas -/

/-- Data rows contribute no header lines. -/
theorem countHeaders_data (rows : List LogRow) :
    countHeaders (rows.map .data) = 0 := by
  rw [countHeaders, List.countP_eq_zero]
  intro a ha
  obtain ⟨r, _, rfl⟩ := List.mem_map.mp ha
  simp [isHeaderLine]

/-- C9: one run writes the header exactly when the file did not previously
exist, and across any non-empty sequence of appending runs starting from no
file, the final log holds exactly one header row, sitting before all data
rows. -/
theorem claim9_header_once :
    (∀ (f : Option (List LogLine)) (rows : List LogRow),
      countHeaders (appendRun f rows)
        = (match f with | none => 1 | some ls => countHeaders ls))
    ∧ (∀ (f : Option (List LogLine)) (rows : List LogRow), f = none →
        (appendRun f rows).head? = some (.header headerCols))
    ∧ (∀ runs : List (List LogRow), runs ≠ [] →
        ∃ ls, runsFold runs = some ls ∧ countHeaders ls = 1
          ∧ ls.head? = some (.header headerCols)) := by
  refine ⟨?_, ?_, ?_⟩
  · intro f rows
    cases f with
    | none =>
      show countHeaders (LogLine.header headerCols :: rows.map LogLine.data) = 1
      rw [countHeaders, List.countP_cons]
      rw [show (rows.map LogLine.data).countP isHeaderLine = 0 from
        countHeaders_data rows]
      simp [isHeaderLine]
    | some ls =>
      show countHeaders (ls ++ rows.map LogLine.data) = countHeaders ls
      rw [countHeaders, List.countP_append]
      rw [show (rows.map LogLine.data).countP isHeaderLine = 0 from
        countHeaders_data rows]
      rw [Nat.add_zero]
      rfl
  · intro f rows hf
    subst hf
    rfl
  · have hstep : ∀ (runs : List (List LogRow)) (ls : List LogLine),
        countHeaders ls = 1 → ls.head? = some (.header headerCols) →
        ∃ ls', List.foldl (fun f rows => some (appendRun f rows))
            (some ls) runs = some ls'
          ∧ countHeaders ls' = 1
          ∧ ls'.head? = some (.header headerCols) := by
      intro runs
      induction runs with
      | nil => intro ls h1 h2; exact ⟨ls, rfl, h1, h2⟩
      | cons r rest ih =>
        intro ls h1 h2
        rw [List.foldl_cons]
        refine ih (appendRun (some ls) r) ?_ ?_
        · show countHeaders (ls ++ r.map LogLine.data) = 1
          rw [countHeaders, List.countP_append]
          rw [show (r.map LogLine.data).countP isHeaderLine = 0 from
            countHeaders_data r]
          rw [Nat.add_zero]
          exact h1
        · show (ls ++ r.map LogLine.data).head? = some (.header headerCols)
          cases ls with
          | nil => cases h2
          | cons a tl =>
            rw [List.cons_append]
            exact h2
    intro runs hne
    cases runs with
    | nil => exact absurd rfl hne
    | cons r rest =>
      rw [runsFold, List.foldl_cons]
      refine hstep rest (appendRun none r) ?_ rfl
      show countHeaders (LogLine.header headerCols :: r.map LogLine.data) = 1
      rw [countHeaders, List.countP_cons]
      rw [show (r.map LogLine.data).countP isHeaderLine = 0 from
        countHeaders_data r]
      simp [isHeaderLine]

/-- C9 witness: two runs on the same fresh path produce exactly one header
line, first. -/
theorem claim9_witness :
    ∃ ls, runsFold [[⟨"a@b", "sent", 1, some 200, .str "", ""⟩],
        [⟨"c@d", "failed", 3, some 500, .str "", "err"⟩]] = some ls
      ∧ countHeaders ls = 1 ∧ ls.head? = some (.header headerCols) :=
  claim9_header_once.2.2
    [[⟨"a@b", "sent", 1, some 200, .str "", ""⟩],
      [⟨"c@d", "failed", 3, some 500, .str "", "err"⟩]] (by simp)

/-! ## Run-accounting lemmas -/

/-- The rows field of a run. -/
theorem runMain_rows_eq (dry : Bool) (scr : String → Nat → AttemptResult)
    (R B : Nat) (emails : List String) :
    (runMain dry scr R B emails).rows
      = (runBatches dry scr R B emails.length 0 (chunked emails B)).1 := rfl

/-- The sent counter of a run. -/
theorem runMain_sent_eq (dry : Bool) (scr : String → Nat → AttemptResult)
    (R B : Nat) (emails : List String) :
    (runMain dry scr R B emails).totalSent
      = (runMain dry scr R B emails).rows.countP
          (fun r => r.status == "sent") := rfl

/-- The failed counter of a run. -/
theorem runMain_failed_eq (dry : Bool) (scr : String → Nat → AttemptResult)
    (R B : Nat) (emails : List String) :
    (runMain dry scr R B emails).totalFailed
      = (runMain dry scr R B emails).rows.countP
          (fun r => r.status == "failed") := rfl

/-- A row always carries its recipient's address. -/
theorem outcomeOf_email (st : LoopState) (e : String) :
    (outcomeOf st e).email = e := by
  unfold outcomeOf
  split <;> rfl

/-- A row's status is always `sent` or `failed`. -/
theorem outcomeOf_status (st : LoopState) (e : String) :
    (outcomeOf st e).status = "sent" ∨ (outcomeOf st e).status = "failed" := by
  unfold outcomeOf
  split
  · exact Or.inl rfl
  · exact Or.inr rfl

/-- A `sent` row always carries an empty error preview. -/
theorem outcomeOf_sent_preview (st : LoopState) (e : String)
    (h : (outcomeOf st e).status = "sent") :
    (outcomeOf st e).errorPreview = "" := by
  unfold outcomeOf at h ⊢
  split at h
  · rename_i hcond
    rw [if_pos hcond]
  · simp at h

/-- The rows of the batch loop carry the batched recipients in order. -/
theorem runBatches_rows_map_email (dry : Bool)
    (scr : String → Nat → AttemptResult) (R B total : Nat) :
    ∀ (bs : List (List String)) (idx : Nat),
      ((runBatches dry scr R B total idx bs).1).map LogRow.email
        = bs.flatten := by
  intro bs
  induction bs with
  | nil => intro idx; rfl
  | cons batch rest ih =>
    intro idx
    simp only [runBatches, List.flatten_cons, List.map_append]
    rw [ih (idx + 1)]
    unfold processBatch
    rw [List.map_map]
    rw [show (LogRow.email ∘ fun e =>
        outcomeOf (processRecipient dry (scr e) R) e) = id from
      funext (fun e => outcomeOf_email _ e)]
    rw [List.map_id]

/-- C10: a completed run logs exactly one row per loaded recipient, in
order; every recipient is counted exactly once as sent or failed, so the
counters sum to the recipient count; and a `sent` row always has an empty
error preview. -/
theorem claim10_accounting (dry : Bool) (scr : String → Nat → AttemptResult)
    (R B : Nat) (emails : List String) (hB : 0 < B) :
    (runMain dry scr R B emails).rows.map LogRow.email = emails
    ∧ (runMain dry scr R B emails).rows.length = emails.length
    ∧ (runMain dry scr R B emails).totalSent
        + (runMain dry scr R B emails).totalFailed = emails.length
    ∧ (∀ row ∈ (runMain dry scr R B emails).rows,
        (row.status = "sent" ∨ row.status = "failed")
        ∧ (row.status = "sent" → row.errorPreview = "")) := by
  have hshape : ∀ row ∈ (runMain dry scr R B emails).rows,
      ∃ e2, row = outcomeOf (processRecipient dry (scr e2) R) e2 := by
    intro row hrow
    rw [runMain_rows_eq] at hrow
    exact runBatches_rows_mem dry scr R B emails.length
      (chunked emails B) 0 row hrow
  have hdich : ∀ row ∈ (runMain dry scr R B emails).rows,
      (row.status = "sent" ∨ row.status = "failed")
      ∧ (row.status = "sent" → row.errorPreview = "") := by
    intro row hrow
    obtain ⟨e2, rfl⟩ := hshape row hrow
    exact ⟨outcomeOf_status _ _, outcomeOf_sent_preview _ _⟩
  refine ⟨?_, runMain_rows_length dry scr R B emails hB, ?_, hdich⟩
  · rw [runMain_rows_eq, runBatches_rows_map_email,
      chunked_flatten emails B hB]
  · rw [runMain_sent_eq, runMain_failed_eq]
    have hsplit := List.length_eq_countP_add_countP
      (fun r : LogRow => r.status == "sent")
      (runMain dry scr R B emails).rows
    have hcongr : (runMain dry scr R B emails).rows.countP
        (fun r => decide ¬(r.status == "sent") = true)
        = (runMain dry scr R B emails).rows.countP
          (fun r => r.status == "failed") := by
      apply List.countP_congr
      intro row hrow
      rcases (hdich row hrow).1 with hs | hs
      · rw [hs]
        simp
      · rw [hs]
        simp
    rw [← hcongr, ← hsplit]
    exact runMain_rows_length dry scr R B emails hB

/-- C10 witness: a concrete three-recipient all-failing run in two
batches. -/
theorem claim10_witness :
    (runMain false (fun _ _ => .resp 500 "x" none) 3 2
        ["a@b", "c@d", "e@f"]).rows.map LogRow.email = ["a@b", "c@d", "e@f"]
    ∧ (runMain false (fun _ _ => .resp 500 "x" none) 3 2
        ["a@b", "c@d", "e@f"]).totalSent
      + (runMain false (fun _ _ => .resp 500 "x" none) 3 2
        ["a@b", "c@d", "e@f"]).totalFailed = 3 :=
  ⟨(claim10_accounting false (fun _ _ => .resp 500 "x" none) 3 2
      ["a@b", "c@d", "e@f"] (by decide)).1,
    (claim10_accounting false (fun _ _ => .resp 500 "x" none) 3 2
      ["a@b", "c@d", "e@f"] (by decide)).2.2.1⟩

end Webex
